import Mathlib

/-!
Verification of the TraceTrim stack-trace recognition and deduplication
engine (Go package `parser`), shallowly embedded over `List Char`.

Strings are modelled as decoded Unicode text (`List Char`); `len` on a Go
string is the UTF-8 byte length, modelled with `Char.utf8Size`.  The Go
regular expressions used by the parser are embedded as bespoke executable
matchers that follow RE2 leftmost-first semantics (lazy `.+?`, greedy
classes, word boundaries, ordered alternation) for exactly the patterns
appearing in the source.
-/

set_option maxRecDepth 20000

/-- Go `\w` (RE2): ASCII letters, digits and underscore. -/
def isWordChar (c : Char) : Bool :=
  c.isAlphanum || c = '_'

/-- Go `\s` (RE2 Perl class): `[\t\n\f\r ]`. -/
def isPerlSpace (c : Char) : Bool :=
  c = ' ' || c = '\t' || c = '\n' || c = Char.ofNat 12 || c = '\r'

/-- Go `unicode.IsSpace`, the set used by `strings.TrimSpace`. -/
def isUnicodeSpace (c : Char) : Bool :=
  let n := c.toNat
  (9 ≤ n && n ≤ 13) || n = 32 || n = 133 || n = 160 || n = 0x1680 ||
    (0x2000 ≤ n && n ≤ 0x200A) || n = 0x2028 || n = 0x2029 || n = 0x202F ||
    n = 0x205F || n = 0x3000

/-- Go `strings.TrimSpace`. -/
def goTrimSpace (s : List Char) : List Char :=
  ((s.dropWhile isUnicodeSpace).reverse.dropWhile isUnicodeSpace).reverse

/-- Go `len` of a string: its UTF-8 byte length. -/
def utf8Len (s : List Char) : Nat :=
  (s.map Char.utf8Size).sum

/-- Go `strings.Split(content, "\n")`. -/
def splitLines : List Char → List (List Char)
  | [] => [[]]
  | c :: cs =>
    if c = '\n' then [] :: splitLines cs
    else
      match splitLines cs with
      | l :: ls => (c :: l) :: ls
      | [] => [[c]]

/-- Helper for joining: `'\n'`-prefixed concatenation of the non-first lines. -/
def joinRest : List (List Char) → List Char
  | [] => []
  | l :: ls => '\n' :: (l ++ joinRest ls)

/-- Join lines with `"\n"`, as the Go code does with `strings.Builder`. -/
def intercalateNl : List (List Char) → List Char
  | [] => []
  | l :: ls => l ++ joinRest ls

/-- Does `pre` occur as a prefix of `s`? (Go `strings.HasPrefix`.) -/
def startsL : List Char → List Char → Bool
  | [], _ => true
  | _ :: _, [] => false
  | a :: as, b :: bs => a = b && startsL as bs

/-- Go `strings.Contains hay needle`. -/
def containsSub (hay needle : List Char) : Bool :=
  startsL needle hay ||
    match hay with
    | [] => false
    | _ :: t => containsSub t needle

/-- Go `unicode.ToLower` on one character, exactly on the preimage of
ASCII: the Unicode simple lowercase mapping sends a character into the
ASCII range only for `A`–`Z`, for U+0130 (Latin capital I with dot
above, lowercased to `i`) and for U+212A (the Kelvin sign, lowercased
to `k`); all three groups are mapped here as Go does.  Every other
character is kept unchanged — its Go lowercase is not an ASCII
character, so, in the one place this function is used (a substring
comparison against lowercased pure-ASCII allowlist entries), neither the
unchanged character nor its true Go lowercase can equal an entry
character, and the comparison coincides with Go's. -/
def goToLower (c : Char) : Char :=
  if c.toNat = 0x130 then 'i'
  else if c.toNat = 0x212A then 'k'
  else Char.toLower c

/-- Go `strings.ToLower`. -/
def lowerStr (s : List Char) : List Char :=
  s.map goToLower

/-- Go `strings.Count(s, "\n")`. -/
def countNl (s : List Char) : Nat :=
  s.countP (fun c => c = '\n')

/-- Decimal digit character for `%d` formatting. -/
def natDigitChar (d : Nat) : Char :=
  if d = 0 then '0' else if d = 1 then '1' else if d = 2 then '2'
  else if d = 3 then '3' else if d = 4 then '4' else if d = 5 then '5'
  else if d = 6 then '6' else if d = 7 then '7' else if d = 8 then '8'
  else if d = 9 then '9' else '*'

/-- Fuelled core of decimal formatting. -/
def natToCharsCore : Nat → Nat → List Char → List Char
  | _, 0, acc => acc
  | n, fuel + 1, acc =>
    if n < 10 then natDigitChar n :: acc
    else natToCharsCore (n / 10) fuel (natDigitChar (n % 10) :: acc)

/-- Decimal representation of a natural number, modelling Go `fmt` `%d`
on a non-negative int. -/
def natToChars (n : Nat) : List Char :=
  natToCharsCore n (n + 1) []

/-! ## Embedded frame-parsing regular expressions

The Go source compiles six submatch patterns and twelve detection
patterns.  Each is embedded as an executable matcher over `List Char`
that follows RE2 leftmost-first semantics for that exact pattern. -/

/-- Character class `[^:()]` of `framePattern` / `sourceFileAltPattern`. -/
def isFileChar (c : Char) : Bool :=
  !(c = ':' || c = '(' || c = ')')

/-- Body of `\(([^:()]+):(\d+):(\d+)\)` after the opening parenthesis:
file name, line digits, column digits.  Each greedy piece is forced
(`[^:()]+` is ended by the required `:`; `\d+` by the required `:`/`)`),
so the parse is deterministic. -/
def parseAltBody (t : List Char) : Option (List Char × List Char × List Char) :=
  let file := t.takeWhile isFileChar
  if file = [] then none
  else
    match t.drop file.length with
    | ':' :: t3 =>
      let d1 := t3.takeWhile Char.isDigit
      if d1 = [] then none
      else
        match t3.drop d1.length with
        | ':' :: t4 =>
          let d2 := t4.takeWhile Char.isDigit
          if d2 = [] then none
          else
            match t4.drop d2.length with
            | ')' :: _ => some (file, d1, d2)
            | _ => none
        | _ => none
    | _ => none

/-- Tail `\s*\(([^:()]+):(\d+):(\d+)\)` of `framePattern` after the lazy
group `(.+?)`.  `\s*` is forced maximal because `(` is not a space. -/
def parseFrameTail (t : List Char) : Option (List Char × List Char × List Char) :=
  match t.dropWhile isPerlSpace with
  | '(' :: t2 => parseAltBody t2
  | _ => none

/-- Grow the lazy leading group `(.+?)` of `framePattern` one character at
a time (shortest first, never across `\n` since `.` excludes newline);
`acc` holds the group read so far, reversed. -/
def frameGo1 (acc : List Char) : List Char → Option (List Char × List Char × List Char × List Char)
  | [] => none
  | c :: t' =>
    match parseFrameTail (c :: t') with
    | some (file, d1, d2) => some (acc.reverse, file, d1, d2)
    | none => if c = '\n' then none else frameGo1 (c :: acc) t'

/-- `framePattern.FindStringSubmatch`:
`(.+?)\s*\(([^:()]+):(\d+):(\d+)\)`, leftmost-first.  Returns
(function text, file, line, column). -/
def frameFind : List Char → Option (List Char × List Char × List Char × List Char)
  | [] => none
  | c :: t =>
    match (if c = '\n' then none else frameGo1 [c] t) with
    | some r => some r
    | none => frameFind t

/-- Lazy group `(.+?)` followed by `:(\d+)`: grow the group (shortest
first); a `:` not followed by a digit is swallowed into the group.
`acc` is the group so far, reversed and nonempty. -/
def reactGo2 (acc : List Char) : List Char → Option (List Char × List Char)
  | [] => none
  | ':' :: rest =>
    let d := rest.takeWhile Char.isDigit
    if d = [] then reactGo2 (':' :: acc) rest else some (acc.reverse, d)
  | c :: rest => if c = '\n' then none else reactGo2 (c :: acc) rest

/-- `\s*(.+?):(\d+)` after an `@`: the greedy `\s*` prefers the longest
whitespace run, backtracking one space at a time into the lazy group. -/
def reactLazyAt (r : List Char) (w2 : Nat) : Option (List Char × List Char) :=
  match r.drop w2 with
  | c :: rest => if c = '\n' then none else reactGo2 [c] rest
  | [] => none

/-- Descending loop over the candidate `\s*` lengths. -/
def reactW2Desc (r : List Char) : Nat → Option (List Char × List Char)
  | 0 => reactLazyAt r 0
  | w + 1 =>
    match reactLazyAt r (w + 1) with
    | some x => some x
    | none => reactW2Desc r w

/-- Part of the react-console patterns after the literal `@`. -/
def parseReactAfterAt (r : List Char) : Option (List Char × List Char) :=
  reactW2Desc r (r.takeWhile isPerlSpace).length

/-- Tail `\s*@\s*(.+?):(\d+)` of `reactFramePattern` after the lazy
leading group. -/
def parseReactTail (t : List Char) : Option (List Char × List Char) :=
  match t.dropWhile isPerlSpace with
  | '@' :: r => parseReactAfterAt r
  | _ => none

/-- Grow the lazy leading group `(.+?)` of `reactFramePattern`. -/
def reactGo1 (acc : List Char) : List Char → Option (List Char × List Char × List Char)
  | [] => none
  | c :: t' =>
    match parseReactTail (c :: t') with
    | some (file, num) => some (acc.reverse, file, num)
    | none => if c = '\n' then none else reactGo1 (c :: acc) t'

/-- `reactFramePattern.FindStringSubmatch`: `(.+?)\s*@\s*(.+?):(\d+)`,
leftmost-first.  Returns (function text, file, line). -/
def reactFind : List Char → Option (List Char × List Char × List Char)
  | [] => none
  | c :: t =>
    match (if c = '\n' then none else reactGo1 [c] t) with
    | some r => some r
    | none => reactFind t

/-- `sourceFileReactPattern.FindStringSubmatch`: `@\s*(.+?):(\d+)`. -/
def sourceFileReactFind : List Char → Option (List Char × List Char)
  | [] => none
  | '@' :: r =>
    (match parseReactAfterAt r with
     | some x => some x
     | none => sourceFileReactFind r)
  | _ :: r => sourceFileReactFind r

/-- `sourceFileAltPattern.FindStringSubmatch`: `\(([^:()]+):(\d+):(\d+)\)`. -/
def sourceFileAltFind : List Char → Option (List Char × List Char × List Char)
  | [] => none
  | '(' :: r =>
    (match parseAltBody r with
     | some x => some x
     | none => sourceFileAltFind r)
  | _ :: r => sourceFileAltFind r

/-- The ordered alternation `(js|ts|jsx|tsx|mjs|cjs)` of `sourceFilePattern`. -/
def extList6 : List (List Char) :=
  [("js".data), ("ts".data), ("jsx".data), ("tsx".data), ("mjs".data), ("cjs".data)]

/-- The ordered alternation `(js|ts|jsx|tsx|mjs)` of the second detection
pattern (note: no `cjs`). -/
def extList5 : List (List Char) :=
  [("js".data), ("ts".data), ("jsx".data), ("tsx".data), ("mjs".data)]

/-- Try one extension alternative of `\.(ext):(\d+):(\d+)`. -/
def tryExt (e r : List Char) : Option (List Char × List Char × List Char) :=
  if startsL e r then
    match r.drop e.length with
    | ':' :: t3 =>
      let d1 := t3.takeWhile Char.isDigit
      if d1 = [] then none
      else
        match t3.drop d1.length with
        | ':' :: t4 =>
          let d2 := t4.takeWhile Char.isDigit
          if d2 = [] then none else some (e, d1, d2)
        | _ => none
    | _ => none
  else none

/-- Ordered alternation after the dot of `sourceFilePattern`. -/
def tryExts : List (List Char) → List Char → Option (List Char × List Char × List Char)
  | [], _ => none
  | e :: es, r =>
    match tryExt e r with
    | some x => some x
    | none => tryExts es r

/-- `sourceFilePattern.FindStringSubmatch`:
`\.(js|ts|jsx|tsx|mjs|cjs):(\d+):(\d+)`.  Group 1 is the extension. -/
def sourceFileFind : List Char → Option (List Char × List Char × List Char)
  | [] => none
  | '.' :: r =>
    (match tryExts extList6 r with
     | some x => some x
     | none => sourceFileFind r)
  | _ :: r => sourceFileFind r

/-- The lifecycle-method alternation of `componentPattern`, in source order. -/
def lifecycleMethods : List (List Char) :=
  [("render".data), ("componentDidMount".data), ("componentDidUpdate".data),
   ("componentWillUnmount".data)]

/-- After `(\w+)\.`: one of the lifecycle methods, then `\s*\(`. -/
def compMethodTail (r : List Char) : Bool :=
  lifecycleMethods.any fun m =>
    startsL m r &&
      match (r.drop m.length).dropWhile isPerlSpace with
      | '(' :: _ => true
      | _ => false

/-- Attempt `componentPattern` at the current position; the greedy `(\w+)`
is forced maximal by the required dot. -/
def parseCompAt (t : List Char) : Option (List Char) :=
  let w := t.takeWhile isWordChar
  if w = [] then none
  else
    match t.drop w.length with
    | '.' :: r => if compMethodTail r then some w else none
    | _ => none

/-- `componentPattern.FindStringSubmatch`:
`(\w+)\.(render|componentDidMount|componentDidUpdate|componentWillUnmount)\s*\(`.
Returns group 1, the identifier before the dot. -/
def componentFind : List Char → Option (List Char)
  | [] => none
  | c :: t =>
    match parseCompAt (c :: t) with
    | some w => some w
    | none => componentFind t

/-! ## Embedded detection patterns (`stackTracePatterns`) -/

/-- Is a `\b` satisfied just before a word character, given the previous
character (none at the start of the text)? -/
def boundaryOk : Option Char → Bool
  | none => true
  | some c => !(isWordChar c)

/-- Scan every position of the text, tracking the previous character for
`\b`; succeeds if `check` matches at a position whose left context is a
word boundary. -/
def scanB (check : List Char → Bool) : Option Char → List Char → Bool
  | prev, [] => boundaryOk prev && check []
  | prev, c :: t => (boundaryOk prev && check (c :: t)) || scanB check (some c) t

/-- Is this position at the start of the text or just after `\n`
(RE2 `(?m)^`)? -/
def lineStartOk : Option Char → Bool
  | none => true
  | some c => c = '\n'

/-- Scan every position, tracking the previous character for `(?m)^`. -/
def scanM (check : List Char → Bool) : Option Char → List Char → Bool
  | prev, [] => lineStartOk prev && check []
  | prev, c :: t => (lineStartOk prev && check (c :: t)) || scanM check (some c) t

/-- Character class `[\w<>.()\s]` of the first detection pattern. -/
def isClass1 (c : Char) : Bool :=
  isWordChar c || c = '<' || c = '>' || c = '.' || c = '(' || c = ')' || isPerlSpace c

/-- `[^)]+\)` after the explicit `\(`: the negated class is ended by the
required `)`, so the parse is deterministic. -/
def parenBody (t : List Char) : Bool :=
  let u := t.takeWhile (fun x => !(x = ')'))
  !(u = []) &&
    match t.drop u.length with
    | ')' :: _ => true
    | _ => false

/-- Walk `[\w<>.()\s]+\s*\(` with `[^)]+\)` behind it: since the class
contains every space, the `\s+`/`\s*` pieces are absorbed; `cnt` counts
class characters consumed so far (at least one is required before the
accepted `(`, which itself belongs to the class and may also be stepped
over when its parenthesised body fails). -/
def p1Seek (cnt : Nat) : List Char → Bool
  | [] => false
  | c :: t =>
    (decide (1 ≤ cnt) && c = '(' && parenBody t) || (isClass1 c && p1Seek (cnt + 1) t)

/-- Pattern 1, `\bat\s+[\w<>.()\s]+\s*\([^)]+\)`, at one position. -/
def p1Check : List Char → Bool
  | 'a' :: 't' :: c :: t => isPerlSpace c && p1Seek 0 t
  | _ => false

/-- A `\b` just after a digit run: end of text or a non-word character. -/
def boundaryAfter : List Char → Bool
  | [] => true
  | c :: _ => !(isWordChar c)

/-- `\d+\b` with the digit run forced maximal by the trailing boundary. -/
def digitsBoundary (t : List Char) : Bool :=
  !(t.takeWhile Char.isDigit = []) && boundaryAfter (t.drop (t.takeWhile Char.isDigit).length)

/-- `:\d+\b` (digit run forced maximal by the trailing boundary). -/
def oneNumTailB : List Char → Bool
  | ':' :: t => digitsBoundary t
  | _ => false

/-- `:\d+:` with the digit run forced maximal by the required colon. -/
def colonDigits : List Char → Option (List Char)
  | ':' :: t =>
    if t.takeWhile Char.isDigit = [] then none
    else some (t.drop (t.takeWhile Char.isDigit).length)
  | _ => none

/-- `:\d+:\d+\b` (with the two digit runs forced maximal). -/
def twoNumTailB (r : List Char) : Bool :=
  match colonDigits r with
  | some t2 => oneNumTailB t2
  | none => false

/-- The part of patterns 2 and 12 after `\w+\.`: an ordered extension
alternation followed by a numeric tail. -/
def extDotTail (exts : List (List Char)) (tail : List Char → Bool) : List Char → Bool
  | '.' :: r => exts.any fun e => startsL e r && tail (r.drop e.length)
  | _ => false

/-- `\w+\.` then an ordered extension alternation then a numeric tail. -/
def extNumCheck (exts : List (List Char)) (tail : List Char → Bool) (s : List Char) : Bool :=
  let w := s.takeWhile isWordChar
  !(w = []) && extDotTail exts tail (s.drop w.length)

/-- Pattern 2, `\b\w+\.(js|ts|jsx|tsx|mjs):\d+:\d+\b`, at one position. -/
def p2Check (s : List Char) : Bool :=
  extNumCheck extList5 twoNumTailB s

/-- Pattern 12, `\b\w+\.(js|ts|jsx|tsx|mjs|cjs):\d+\b`, at one position. -/
def p12Check (s : List Char) : Bool :=
  extNumCheck extList6 oneNumTailB s

/-- `\s+at\s+` after the `\n` of pattern 3. -/
def p3AfterNl (t : List Char) : Bool :=
  let w := t.takeWhile isPerlSpace
  !(w = []) &&
    match t.drop w.length with
    | 'a' :: 't' :: c :: _ => isPerlSpace c
    | _ => false

/-- `.*\n...` of pattern 3: the dot cannot cross a newline, so the first
`\n` met in this phase must be the literal one. -/
def p3Dot : List Char → Bool
  | [] => false
  | '\n' :: t => p3AfterNl t
  | _ :: t => p3Dot t

/-- `\s+.*\n...` of pattern 3 after at least one space: either stay in the
space run (which may include `\n` characters), take a `\n` as the literal
one, or hand over to the dot phase. -/
def p3Spaces : List Char → Bool
  | [] => false
  | c :: t =>
    (c = '\n' && p3AfterNl t) || (isPerlSpace c && p3Spaces t) ||
      (!(c = '\n') && p3Dot t)

/-- Pattern 3, `(?m)^Error:\s+.*\n\s+at\s+`, at one line start. -/
def p3Check (s : List Char) : Bool :=
  startsL ("Error:".data) s &&
    match s.drop 6 with
    | c :: t => isPerlSpace c && p3Spaces t
    | [] => false

/-- Pattern 6 tail: `Uncaught\s+`. -/
def p6Check (s : List Char) : Bool :=
  startsL ("Uncaught".data) s &&
    match s.drop 8 with
    | c :: _ => isPerlSpace c
    | [] => false

/-- `.+?:\d+\b` of pattern 11: walk any non-newline characters (count in
`cnt`), accepting at a `:` preceded by at least one such character and
followed by `\d+\b`; a rejected `:` is swallowed by the dot. -/
def p11Dot : Nat → List Char → Bool
  | _, [] => false
  | cnt, c :: t =>
    (decide (1 ≤ cnt) && c = ':' && digitsBoundary t) || (!(c = '\n') && p11Dot (cnt + 1) t)

/-- The part of pattern 11 after `@\s` — that is, after the `@` and the
first, mandatory space character of the `\s+`, which the caller has
already consumed: either extend the space run with a further space or
start the dot run (which needs at least one character of its own before
the `:`). -/
def p11WsOrDot : List Char → Bool
  | [] => false
  | c :: t => p11Dot 0 (c :: t) || (isPerlSpace c && p11WsOrDot t)

/-- Pattern 11, `\b\w+\s+@\s+.+?:\d+\b`, at one position.  The character
right after `@` must be a space and is consumed as the first character
of the `\s+`, so the lazy `.+?` run must be fed from what follows it. -/
def p11Check (s : List Char) : Bool :=
  let w := s.takeWhile isWordChar
  !(w = []) &&
    (let r1 := s.drop w.length
     let ws1 := r1.takeWhile isPerlSpace
     !(ws1 = []) &&
       match r1.drop ws1.length with
       | '@' :: c :: t => isPerlSpace c && p11WsOrDot t
       | _ => false)

/-- The twelve compiled detection patterns of `stackTracePatterns`, in
source order, as whole-string matchers (`MatchString`). -/
def stackTracePatterns : List (List Char → Bool) :=
  [ scanB p1Check none,
    scanB p2Check none,
    scanM p3Check none,
    scanB (fun s => startsL ("react-dom.development.js".data) s) none,
    scanB (fun s => startsL ("ReactErrorUtils.invokeGuardedCallback".data) s) none,
    scanB p6Check none,
    scanB (fun s => startsL ("ReferenceError:".data) s) none,
    scanB (fun s => startsL ("TypeError:".data) s) none,
    scanB (fun s => startsL ("SyntaxError:".data) s) none,
    scanB (fun s => startsL ("EvalError:".data) s) none,
    scanB p11Check none,
    scanB p12Check none ]

/-- Does a line match at least one detection pattern (the inner loop of
`IsStackTrace`, which breaks at the first hit)? -/
def lineMatchesAny (line : List Char) : Bool :=
  stackTracePatterns.any fun p => p line

/-! ## Data model (`internal/models`) -/

namespace models

/-- A parsed stack frame (`models.StackFrame`); the cleaning pipeline
always leaves the `Frames` list empty. -/
structure StackFrame where
  Function : List Char
  File : List Char
  Line : Int
  Column : Int
deriving DecidableEq

/-- Structured information extracted from a trace (`models.ErrorInfo`). -/
structure ErrorInfo where
  Stack : List (List Char)
  Message : List Char
  Source : List Char
  Component : List Char
deriving DecidableEq

/-- Result of the cleaning pipeline (`models.CleanResult`), with the
fields populated by the parser package. -/
structure CleanResult where
  Frames : List StackFrame
  ErrorInfo : Option ErrorInfo
  Original : List Char
  Cleaned : List Char
  Removed : Nat
  BytesSaved : Int
  LinesBefore : Nat
  LinesAfter : Nat
deriving DecidableEq

end models

/-! ## The parser package -/

/-- `isValidContent` (the UTF-8 validity check of the source holds by
construction in this embedding, which ranges over decoded text). -/
def isValidContent (content : List Char) : Bool :=
  if Char.ofNat 0 ∈ content then false
  else if 50 * 1024 * 1024 < utf8Len content then false
  else if (splitLines content).any (fun line => 10000 < utf8Len line) then false
  else true

/-- The line loop of `IsStackTrace`: count pattern-matching non-empty
lines, returning `true` as soon as the counter reaches 2
(`minStackLinesForDetection`). -/
def isStackTraceLoop (k : Nat) : List (List Char) → Bool
  | [] => false
  | l :: ls =>
    if l = [] then isStackTraceLoop k ls
    else
      let k' := if lineMatchesAny l then k + 1 else k
      if 2 ≤ k' then true else isStackTraceLoop k' ls

/-- `IsStackTrace`: validity gate, 20-byte (`minStackTraceLength`) gate,
then the counting scan. -/
def IsStackTrace (content : List Char) : Bool :=
  if isValidContent content = false then false
  else if utf8Len content < 20 then false
  else isStackTraceLoop 0 (splitLines content)

/-- The fixed allowlist `reactInternalFunctions`. -/
def reactInternalFunctions : List (List Char) :=
  [ ("recursivelyTraverseAndDoubleInvokeEffectsInDEV".data),
    ("recursivelyTraversePassiveMountEffects".data),
    ("commitPassiveMountOnFiber".data),
    ("recursivelyTraverseReconnectPassiveEffects".data),
    ("recursivelyTraverseDisconnectPassiveEffects".data),
    ("recursivelyTraversePassiveUnmountEffects".data),
    ("commitPassiveUnmountOnFiber".data),
    ("ReactErrorUtils.invokeGuardedCallback".data),
    ("ReactCompositeComponent._renderValidatedComponent".data),
    ("react_stack_bottom_frame".data) ]

/-- `isReactInternalFunction`: the file must contain the marker
`react-dom` and the function name must contain, case-insensitively, one
of the allowlist entries. -/
def isReactInternalFunction (functionName fileName : List Char) : Bool :=
  containsSub fileName ("react-dom".data) &&
    reactInternalFunctions.any fun e =>
      containsSub (lowerStr functionName) (lowerStr e)

/-- `extractFrameSignatureForStandardFormat`. -/
def extractFrameSignatureForStandardFormat (functionName fileName lineNumber : List Char) : List Char :=
  if isReactInternalFunction functionName fileName then
    functionName ++ '|' :: fileName
  else
    functionName ++ '|' :: fileName ++ '|' :: lineNumber

/-- Go `strings.TrimPrefix(functionName, "at ")`. -/
def dropAtTag (functionName : List Char) : List Char :=
  if startsL ("at ".data) functionName then functionName.drop 3 else functionName

/-- `extractFrameSignature`: call-style shape first, then arrow-style,
else the raw line. -/
def extractFrameSignature (line : List Char) : List Char :=
  match frameFind line with
  | some (fn, file, num, _) =>
    extractFrameSignatureForStandardFormat (dropAtTag (goTrimSpace fn)) file num
  | none =>
    match reactFind line with
    | some (fn, file, num) =>
      let f := goTrimSpace fn
      if isReactInternalFunction f file then f ++ '|' :: file
      else f ++ '|' :: file ++ '|' :: num
    | none => line

/-- The frame test of the cleaning loop:
`framePattern.MatchString(line) || reactFramePattern.MatchString(line)`. -/
def isStackFrameLine (line : List Char) : Bool :=
  (frameFind line).isSome || (reactFind line).isSome

/-- The line loop of `CleanStackTrace`: keep the original form of every
empty or non-frame line; keep a frame line only the first time its
signature is seen, counting the dropped ones. -/
def cleanLoop (seen : List (List Char)) : List (List Char) → List (List Char) × Nat
  | [] => ([], 0)
  | l :: ls =>
    let t := goTrimSpace l
    if t = [] then
      let r := cleanLoop seen ls
      (l :: r.1, r.2)
    else if isStackFrameLine t then
      let sig := extractFrameSignature t
      if sig ∈ seen then
        let r := cleanLoop seen ls
        (r.1, r.2 + 1)
      else
        let r := cleanLoop (sig :: seen) ls
        (l :: r.1, r.2)
    else
      let r := cleanLoop seen ls
      (l :: r.1, r.2)

/-- The summary line `fmt.Sprintf("// Removed %d repetitive stack frame(s)", n)`
(without its trailing newline). -/
def removalHeader (n : Nat) : List Char :=
  ("// Removed ".data) ++ natToChars n ++ (" repetitive stack frame(s)".data)

/-- `CleanStackTrace`: validity gate, trace gate, dedup loop, re-join,
and the prepended summary line when anything was removed.  Returns the
`CleanResultPair` (content, removed). -/
def CleanStackTrace (content : List Char) : List Char × Nat :=
  if isValidContent content = false then (content, 0)
  else if IsStackTrace content = false then (content, 0)
  else
    let r := cleanLoop [] (splitLines content)
    let joined := intercalateNl r.1
    if 0 < r.2 then (removalHeader r.2 ++ '\n' :: joined, r.2)
    else (joined, r.2)

/-- Go `strings.LastIndex(s, sub)` as a character index. -/
def lastIndexOfSub (s sub : List Char) : Option Nat :=
  (List.range (s.length + 1)).filterMap
    (fun i => if startsL sub (s.drop i) then some i else none) |>.getLast?

/-- Is a file name React-internal for source extraction
(`react-dom` / `ReactErrorUtils` markers)? -/
def sourceFileInternal (filename : List Char) : Bool :=
  containsSub filename ("react-dom".data) ||
    containsSub filename ("ReactErrorUtils".data)

/-- The react-console / parenthesised source extraction of
`ExtractErrorInfo` for one (trimmed, non-empty) line: the value written
to `source`, or `none` when the line leaves `source` untouched.  When
the react pattern matches but the file is internal, the parenthesised
pattern is not tried (`else if` in the source). -/
def linePrimarySource (line : List Char) : Option (List Char) :=
  match sourceFileReactFind line with
  | some (f, num) =>
    let filename := goTrimSpace f
    if sourceFileInternal filename then none
    else some (filename ++ ':' :: num)
  | none =>
    match sourceFileAltFind line with
    | some (f, num, _) =>
      let filename := goTrimSpace f
      if sourceFileInternal filename then none
      else some (filename ++ ':' :: num)
    | none => none

/-- The `.js:`-based fallback source extraction of `ExtractErrorInfo`,
only consulted while `source` is still empty.  Note that the source code
formats `jsMatches[1]` — the extension capture of `sourceFilePattern` —
in the line-number position. -/
def lineFallbackSource (line : List Char) : Option (List Char) :=
  match sourceFileFind line with
  | some (ext, _, _) =>
    (match lastIndexOfSub line (".js:".data) with
     | none => none
     | some jsIndex =>
       match lastIndexOfSub (line.take jsIndex) (['(']) with
       | none => none
       | some start =>
         let filename := (line.drop (start + 1)).take (jsIndex + 3 - (start + 1))
         if sourceFileInternal filename then none
         else some (goTrimSpace filename ++ ':' :: ext))
  | none => none

/-- One iteration of the extraction loop of `ExtractErrorInfo`; the state
is (source, component, reversed collected frames). -/
def infoStep (st : List Char × List Char × List (List Char)) (origLine : List Char) :
    List Char × List Char × List (List Char) :=
  let line := goTrimSpace origLine
  if line = [] then st
  else
    let s1 := match linePrimarySource line with
              | some v => v
              | none => st.1
    let s2 := if s1 = [] then
                match lineFallbackSource line with
                | some v => v
                | none => s1
              else s1
    let comp := match componentFind line with
                | some g1 => g1
                | none => st.2.1
    (s2, comp, origLine :: st.2.2)

/-- The first line of the split (Go `lines[0]`; the split is never empty). -/
def firstLine (content : List Char) : List Char :=
  match splitLines content with
  | l :: _ => l
  | [] => []

/-- `ExtractErrorInfo`. -/
def ExtractErrorInfo (content : List Char) : Option models.ErrorInfo :=
  if IsStackTrace content = false then none
  else
    let lines := splitLines content
    let message := goTrimSpace (firstLine content)
    let st := lines.foldl infoStep ([], [], [])
    some
      { Stack := st.2.2.reverse
        Message := message
        Source := st.1
        Component := st.2.1 }

/-- `CleanResult`, the result assembler. -/
def CleanResult (content : List Char) : models.CleanResult :=
  let original := content
  let p := CleanStackTrace content
  { Frames := []
    ErrorInfo := ExtractErrorInfo content
    Original := original
    Cleaned := p.1
    Removed := p.2
    BytesSaved := (utf8Len original : Int) - (utf8Len p.1 : Int)
    LinesBefore := countNl original + 1
    LinesAfter := countNl p.1 + 1 }

/-! ## Structural lemmas about splitting and joining lines -/

theorem splitLines_ne_nil (s : List Char) : splitLines s ≠ [] := by
  induction s with
  | nil => simp [splitLines]
  | cons c cs ih =>
    simp only [splitLines]
    split
    · simp
    · cases h : splitLines cs with
      | nil => simp
      | cons l ls => simp

theorem mem_splitLines_no_nl (s : List Char) :
    ∀ l ∈ splitLines s, ¬ ('\n' ∈ l) := by
  induction s with
  | nil =>
    intro l hl
    simp [splitLines] at hl
    simp [hl]
  | cons c cs ih =>
    intro l hl
    simp only [splitLines] at hl
    by_cases hc : c = '\n'
    · simp [hc] at hl
      rcases hl with h | h
      · simp [h]
      · exact ih l h
    · simp [hc] at hl
      cases h : splitLines cs with
      | nil => exact absurd h (splitLines_ne_nil cs)
      | cons l0 ls0 =>
        rw [h] at hl
        simp at hl
        rcases hl with h1 | h1
        · subst h1
          intro hmem
          simp at hmem
          rcases hmem with h2 | h2
          · exact hc h2.symm
          · exact ih l0 (by simp [h]) h2
        · exact ih l (by simp [h, h1])

theorem join_split (s : List Char) : intercalateNl (splitLines s) = s := by
  induction s with
  | nil => simp [splitLines, intercalateNl, joinRest]
  | cons c cs ih =>
    simp only [splitLines]
    by_cases hc : c = '\n'
    · subst hc
      simp only [if_pos rfl]
      cases h : splitLines cs with
      | nil => exact absurd h (splitLines_ne_nil cs)
      | cons l ls =>
        rw [h] at ih
        simp [intercalateNl, joinRest] at ih ⊢
        simpa [intercalateNl] using ih
    · simp only [if_neg hc]
      cases h : splitLines cs with
      | nil => exact absurd h (splitLines_ne_nil cs)
      | cons l ls =>
        rw [h] at ih
        simp [intercalateNl] at ih ⊢
        exact ih

theorem splitLines_no_nl (l : List Char) (h : ¬ ('\n' ∈ l)) :
    splitLines l = [l] := by
  induction l with
  | nil => simp [splitLines]
  | cons c cs ih =>
    simp at h
    have hc : ¬ (c = '\n') := fun hc => h.1 hc.symm
    simp only [splitLines, if_neg hc]
    rw [ih h.2]

theorem splitLines_append_nl (h t : List Char) (hh : ¬ ('\n' ∈ h)) :
    splitLines (h ++ '\n' :: t) = h :: splitLines t := by
  induction h with
  | nil => simp [splitLines]
  | cons c cs ih =>
    simp at hh
    have hc : ¬ (c = '\n') := fun hc => hh.1 hc.symm
    have hstep : (c :: cs) ++ '\n' :: t = c :: (cs ++ '\n' :: t) := rfl
    rw [hstep]
    simp only [splitLines, if_neg hc]
    rw [ih hh.2]

theorem split_join (ls : List (List Char)) (hne : ls ≠ [])
    (hnl : ∀ l ∈ ls, ¬ ('\n' ∈ l)) :
    splitLines (intercalateNl ls) = ls := by
  induction ls with
  | nil => exact absurd rfl hne
  | cons l ls ih =>
    cases ls with
    | nil =>
      simp [intercalateNl, joinRest]
      exact splitLines_no_nl l (hnl l (by simp))
    | cons l2 ls2 =>
      have h1 : intercalateNl (l :: l2 :: ls2) = l ++ '\n' :: intercalateNl (l2 :: ls2) := by
        simp [intercalateNl, joinRest]
      rw [h1, splitLines_append_nl l _ (hnl l (by simp))]
      rw [ih (by simp) (fun x hx => hnl x (by simp [hx]))]

theorem splitLines_length (s : List Char) :
    (splitLines s).length = countNl s + 1 := by
  induction s with
  | nil => simp [splitLines, countNl]
  | cons c cs ih =>
    simp only [splitLines]
    by_cases hc : c = '\n'
    · simp [hc, countNl, List.countP_cons] at ih ⊢
      omega
    · simp only [if_neg hc]
      cases h : splitLines cs with
      | nil => exact absurd h (splitLines_ne_nil cs)
      | cons l ls =>
        rw [h] at ih
        simp [countNl, List.countP_cons, hc] at ih ⊢
        simpa using ih

/-! ## Structural lemmas about the cleaning loop -/

theorem cleanLoop_sublist : ∀ (ls : List (List Char)) (seen : List (List Char)),
    ((cleanLoop seen ls).1).Sublist ls := by
  intro ls
  induction ls with
  | nil => intro seen; simp [cleanLoop]
  | cons l ls ih =>
    intro seen
    simp only [cleanLoop]
    split
    · exact (ih seen).cons₂ l
    · split
      · split
        · exact (ih seen).cons l
        · exact (ih _).cons₂ l
      · exact (ih seen).cons₂ l

theorem cleanLoop_length : ∀ (ls : List (List Char)) (seen : List (List Char)),
    ((cleanLoop seen ls).1).length + (cleanLoop seen ls).2 = ls.length := by
  intro ls
  induction ls with
  | nil => intro seen; simp [cleanLoop]
  | cons l ls ih =>
    intro seen
    simp only [cleanLoop]
    by_cases h1 : goTrimSpace l = []
    · have := ih seen
      simp only [if_pos h1, List.length_cons]
      omega
    · simp only [if_neg h1]
      by_cases h2 : isStackFrameLine (goTrimSpace l) = true
      · simp only [if_pos h2]
        by_cases h3 : extractFrameSignature (goTrimSpace l) ∈ seen
        · have := ih seen
          simp only [if_pos h3, List.length_cons]
          omega
        · have := ih (extractFrameSignature (goTrimSpace l) :: seen)
          simp only [if_neg h3, List.length_cons]
          omega
      · have := ih seen
        simp only [if_neg h2, List.length_cons]
        omega

theorem cleanLoop_zero : ∀ (ls : List (List Char)) (seen : List (List Char)),
    (cleanLoop seen ls).2 = 0 → (cleanLoop seen ls).1 = ls := by
  intro ls
  induction ls with
  | nil => intro seen _; simp [cleanLoop]
  | cons l ls ih =>
    intro seen h
    simp only [cleanLoop] at h ⊢
    by_cases h1 : goTrimSpace l = []
    · simp only [if_pos h1] at h ⊢
      rw [ih seen h]
    · simp only [if_neg h1] at h ⊢
      by_cases h2 : isStackFrameLine (goTrimSpace l) = true
      · simp only [if_pos h2] at h ⊢
        by_cases h3 : extractFrameSignature (goTrimSpace l) ∈ seen
        · simp only [if_pos h3] at h
          omega
        · simp only [if_neg h3] at h ⊢
          rw [ih _ h]
      · simp only [if_neg h2] at h ⊢
        rw [ih seen h]

theorem cleanLoop_ne_nil (l : List Char) (ls : List (List Char)) :
    (cleanLoop [] (l :: ls)).1 ≠ [] := by
  simp only [cleanLoop]
  split
  · simp
  · split
    · split
      · simp_all
      · simp
    · simp

theorem natDigitChar_ne_nl (d : Nat) : ¬ (natDigitChar d = '\n') := by
  unfold natDigitChar
  split_ifs <;> decide

theorem natToCharsCore_no_nl : ∀ (fuel n : Nat) (acc : List Char),
    ¬ ('\n' ∈ acc) → ¬ ('\n' ∈ natToCharsCore n fuel acc) := by
  intro fuel
  induction fuel with
  | zero => intro n acc h; simpa [natToCharsCore] using h
  | succ f ih =>
    intro n acc h
    simp only [natToCharsCore]
    split
    · intro hmem
      simp at hmem
      rcases hmem with h1 | h1
      · exact natDigitChar_ne_nl n h1.symm
      · exact h h1
    · refine ih _ _ ?_
      intro hmem
      simp at hmem
      rcases hmem with h1 | h1
      · exact natDigitChar_ne_nl _ h1.symm
      · exact h h1

theorem removalHeader_no_nl (n : Nat) : ¬ ('\n' ∈ removalHeader n) := by
  intro hmem
  simp only [removalHeader, natToChars, List.mem_append] at hmem
  rcases hmem with (h | h) | h
  · revert h; decide
  · exact natToCharsCore_no_nl _ _ _ (by simp) h
  · revert h; decide

/-! ## Claim theorems -/

/-- C2: whenever cleaning removes at least one line, the output of
`CleanStackTrace` is exactly the summary line
`// Removed <N> repetitive stack frame(s)` — with `N` the exact count of
dropped duplicate frame lines produced by the dedup loop — followed by a
newline and the kept lines joined with `\n`; when nothing is removed the
output is byte-identical to the input.  On the Scenario A input the
removed count is 2 and the output is the summary line followed by the
message, one `invokeGuardedCallback` line and the
`_renderValidatedComponent` line. -/
theorem cleanStackTrace_output_shape (x : List Char) :
    (1 ≤ (CleanStackTrace x).2 →
      (CleanStackTrace x).1 =
        removalHeader ((cleanLoop [] (splitLines x)).2) ++
          '\n' :: intercalateNl ((cleanLoop [] (splitLines x)).1) ∧
      (CleanStackTrace x).2 = (cleanLoop [] (splitLines x)).2) ∧
    ((CleanStackTrace x).2 = 0 → (CleanStackTrace x).1 = x) ∧
    CleanStackTrace ("Error: Objects are not valid as a React child\n    at ReactErrorUtils.invokeGuardedCallback (react-dom.development.js:138:15)\n    at ReactErrorUtils.invokeGuardedCallback (react-dom.development.js:138:15)\n    at ReactErrorUtils.invokeGuardedCallback (react-dom.development.js:138:15)\n    at ReactCompositeComponent._renderValidatedComponent (react-dom.development.js:185:13)".data) =
      (("// Removed 2 repetitive stack frame(s)\nError: Objects are not valid as a React child\n    at ReactErrorUtils.invokeGuardedCallback (react-dom.development.js:138:15)\n    at ReactCompositeComponent._renderValidatedComponent (react-dom.development.js:185:13)".data), 2) := by
  refine ⟨?_, ?_, by decide⟩
  · intro h
    by_cases h1 : isValidContent x = false
    · simp [CleanStackTrace, h1] at h ⊢
    · by_cases h2 : IsStackTrace x = false
      · simp [CleanStackTrace, h1, h2] at h ⊢
      · simp only [CleanStackTrace, if_neg h1, if_neg h2] at h ⊢
        by_cases h3 : 0 < (cleanLoop [] (splitLines x)).2
        · simp [if_pos h3]
        · simp [if_neg h3] at h ⊢
          omega
  · intro h
    by_cases h1 : isValidContent x = false
    · simp [CleanStackTrace, h1]
    · by_cases h2 : IsStackTrace x = false
      · simp [CleanStackTrace, h1, h2]
      · simp only [CleanStackTrace, if_neg h1, if_neg h2] at h ⊢
        by_cases h3 : 0 < (cleanLoop [] (splitLines x)).2
        · simp [if_pos h3] at h
          omega
        · simp only [if_neg h3] at h ⊢
          have hz : (cleanLoop [] (splitLines x)).2 = 0 := by omega
          rw [cleanLoop_zero _ _ hz]
          exact join_split x

/-- Witness for C2 at the Scenario A input. -/
theorem cleanStackTrace_output_shape_witness :
    (CleanStackTrace ("Error: Objects are not valid as a React child\n    at ReactErrorUtils.invokeGuardedCallback (react-dom.development.js:138:15)\n    at ReactErrorUtils.invokeGuardedCallback (react-dom.development.js:138:15)\n    at ReactErrorUtils.invokeGuardedCallback (react-dom.development.js:138:15)\n    at ReactCompositeComponent._renderValidatedComponent (react-dom.development.js:185:13)".data)).1 =
      removalHeader ((cleanLoop [] (splitLines ("Error: Objects are not valid as a React child\n    at ReactErrorUtils.invokeGuardedCallback (react-dom.development.js:138:15)\n    at ReactErrorUtils.invokeGuardedCallback (react-dom.development.js:138:15)\n    at ReactErrorUtils.invokeGuardedCallback (react-dom.development.js:138:15)\n    at ReactCompositeComponent._renderValidatedComponent (react-dom.development.js:185:13)".data))).2) ++
        '\n' :: intercalateNl ((cleanLoop [] (splitLines ("Error: Objects are not valid as a React child\n    at ReactErrorUtils.invokeGuardedCallback (react-dom.development.js:138:15)\n    at ReactErrorUtils.invokeGuardedCallback (react-dom.development.js:138:15)\n    at ReactErrorUtils.invokeGuardedCallback (react-dom.development.js:138:15)\n    at ReactCompositeComponent._renderValidatedComponent (react-dom.development.js:185:13)".data))).1) :=
  ((cleanStackTrace_output_shape _).1 (by decide)).1

/-- C3: `CleanStackTrace` is a no-op, returning the exact original text
with a removal count of 0, on every content that `IsStackTrace` rejects;
in particular on the Scenario B plain-text input. -/
theorem clean_noop_on_non_traces :
    (∀ x : List Char, IsStackTrace x = false → CleanStackTrace x = (x, 0)) ∧
    IsStackTrace ("This is just regular text that should not be processed as a stack trace".data) = false ∧
    CleanStackTrace ("This is just regular text that should not be processed as a stack trace".data) =
      (("This is just regular text that should not be processed as a stack trace".data), 0) := by
  refine ⟨?_, by decide, by decide⟩
  intro x hx
  by_cases h1 : isValidContent x = false
  · simp [CleanStackTrace, h1]
  · simp [CleanStackTrace, h1, hx]

/-- Witness for C3 at the Scenario B input. -/
theorem clean_noop_on_non_traces_witness :
    CleanStackTrace ("This is just regular text that should not be processed as a stack trace".data) =
      (("This is just regular text that should not be processed as a stack trace".data), 0) :=
  clean_noop_on_non_traces.1 _ (by decide)

/-- C4: content failing a `ContentValidator` rule — a null byte, total
size above 50 MB, or a single line longer than 10 KB — is rejected by the
validator, classified as a non-trace, and passed through `CleanStackTrace`
unchanged with a removal count of 0.  (The remaining source rule, UTF-8
validity, holds by construction in this embedding, which ranges over
decoded text.) -/
theorem validator_gate (x : List Char)
    (h : Char.ofNat 0 ∈ x ∨ 50 * 1024 * 1024 < utf8Len x ∨
      ∃ l ∈ splitLines x, 10000 < utf8Len l) :
    isValidContent x = false ∧ IsStackTrace x = false ∧ CleanStackTrace x = (x, 0) := by
  have hv : isValidContent x = false := by
    rcases h with h | h | h
    · simp [isValidContent, h]
    · by_cases h0 : Char.ofNat 0 ∈ x
      · simp [isValidContent, h0]
      · simp [isValidContent, h0, h]
    · by_cases h0 : Char.ofNat 0 ∈ x
      · simp [isValidContent, h0]
      · by_cases h1 : 50 * 1024 * 1024 < utf8Len x
        · simp [isValidContent, h0, h1]
        · have ha : (splitLines x).any (fun line => 10000 < utf8Len line) = true := by
            rcases h with ⟨l, hl, hlen⟩
            simp only [List.any_eq_true]
            exact ⟨l, hl, by simpa using hlen⟩
          simp [isValidContent, h0, h1, ha]
  refine ⟨hv, by simp [IsStackTrace, hv], by simp [CleanStackTrace, hv]⟩

/-- Witness for C4: a short text containing a null byte. -/
theorem validator_gate_witness :
    isValidContent (Char.ofNat 0 :: ("hello".data)) = false ∧
    IsStackTrace (Char.ofNat 0 :: ("hello".data)) = false ∧
    CleanStackTrace (Char.ofNat 0 :: ("hello".data)) = (Char.ofNat 0 :: ("hello".data), 0) :=
  validator_gate _ (Or.inl (by decide))

/-- C8: the assembled `CleanResult` computes `bytesSaved` as the length
difference of the two strings and the line counts as newline counts plus
one (equivalently, the number of split lines), directly from the strings
rather than from the removal count. -/
theorem cleanResult_accounting (x : List Char) :
    (CleanResult x).Original = x ∧
    (CleanResult x).Cleaned = (CleanStackTrace x).1 ∧
    (CleanResult x).Removed = (CleanStackTrace x).2 ∧
    (CleanResult x).BytesSaved =
      (utf8Len x : Int) - (utf8Len ((CleanResult x).Cleaned) : Int) ∧
    (CleanResult x).LinesBefore = countNl x + 1 ∧
    (CleanResult x).LinesAfter = countNl ((CleanResult x).Cleaned) + 1 ∧
    (CleanResult x).LinesBefore = (splitLines x).length ∧
    (CleanResult x).LinesAfter = (splitLines ((CleanResult x).Cleaned)).length := by
  refine ⟨rfl, rfl, rfl, rfl, rfl, rfl, ?_, ?_⟩
  · simp [CleanResult, splitLines_length]
  · simp [CleanResult, splitLines_length]

/-- C10: cleaning can enlarge the content: on this input the cleaner
removes one duplicate frame line, yet the prepended summary line adds
more bytes than the dropped line contained, so `bytesSaved` is negative. -/
theorem bytesSaved_can_be_negative :
    IsStackTrace ("at a (b.js:1:2)\nat a (b.js:1:2)".data) = true ∧
    (CleanResult ("at a (b.js:1:2)\nat a (b.js:1:2)".data)).Removed = 1 ∧
    (CleanResult ("at a (b.js:1:2)\nat a (b.js:1:2)".data)).BytesSaved = -23 ∧
    (CleanResult ("at a (b.js:1:2)\nat a (b.js:1:2)".data)).BytesSaved < 0 := by
  refine ⟨by decide, by decide, by decide, by decide⟩

/-! ## Counting characterisation of the detection scan -/

/-- The per-line predicate counted by the classifier: non-empty and
matching at least one detection pattern. -/
def detectLine (l : List Char) : Bool :=
  !(l = []) && lineMatchesAny l

theorem isStackTraceLoop_cons (k : Nat) (l : List Char) (ls : List (List Char)) :
    isStackTraceLoop k (l :: ls) =
      if l = [] then isStackTraceLoop k ls
      else if 2 ≤ (if lineMatchesAny l then k + 1 else k) then true
      else isStackTraceLoop (if lineMatchesAny l then k + 1 else k) ls := rfl

theorem isStackTraceLoop_iff_count : ∀ (ls : List (List Char)) (k : Nat), k < 2 →
    (isStackTraceLoop k ls = true ↔ 2 ≤ k + ls.countP detectLine) := by
  intro ls
  induction ls with
  | nil =>
    intro k hk
    simp [isStackTraceLoop]
    omega
  | cons l ls ih =>
    intro k hk
    rw [isStackTraceLoop_cons]
    by_cases hl : l = []
    · rw [if_pos hl, ih k hk]
      have hd : detectLine l = false := by simp [detectLine, hl]
      rw [List.countP_cons_of_neg _ _ (by simp [hd])]
    · rw [if_neg hl]
      by_cases hm : lineMatchesAny l = true
      · have hd : detectLine l = true := by simp [detectLine, hl, hm]
        rw [List.countP_cons_of_pos _ _ (by simp [hd])]
        rw [if_pos hm]
        by_cases h2 : 2 ≤ k + 1
        · rw [if_pos h2]
          constructor
          · intro _
            omega
          · intro _
            rfl
        · rw [if_neg h2, ih (k + 1) (by omega)]
          constructor
          · intro h
            omega
          · intro h
            omega
      · have hmf : lineMatchesAny l = false := by simpa using hm
        have hd : detectLine l = false := by simp [detectLine, hmf]
        rw [List.countP_cons_of_neg _ _ (by simp [hd])]
        rw [if_neg hm, if_neg (by omega : ¬ 2 ≤ k)]
        exact ih k hk

theorem isStackTraceLoop_append : ∀ (a : List (List Char)) (k : Nat) (b : List (List Char)),
    k < 2 → 2 ≤ k + a.countP detectLine → isStackTraceLoop k (a ++ b) = true := by
  intro a
  induction a with
  | nil =>
    intro k b hk h
    simp at h
    omega
  | cons l a ih =>
    intro k b hk h
    rw [List.cons_append, isStackTraceLoop_cons]
    by_cases hl : l = []
    · rw [if_pos hl]
      have hd : detectLine l = false := by simp [detectLine, hl]
      rw [List.countP_cons_of_neg _ _ (by simp [hd])] at h
      exact ih k b hk h
    · rw [if_neg hl]
      by_cases hm : lineMatchesAny l = true
      · rw [if_pos hm]
        by_cases h2 : 2 ≤ k + 1
        · rw [if_pos h2]
        · rw [if_neg h2]
          have hd : detectLine l = true := by simp [detectLine, hl, hm]
          rw [List.countP_cons_of_pos _ _ (by simp [hd])] at h
          exact ih (k + 1) b (by omega) (by omega)
      · have hmf : lineMatchesAny l = false := by simpa using hm
        have hd : detectLine l = false := by simp [detectLine, hmf]
        rw [List.countP_cons_of_neg _ _ (by simp [hd])] at h
        rw [if_neg hm, if_neg (by omega : ¬ 2 ≤ k)]
        exact ih k b hk h

/-! ## Completeness of pattern 12 for extension tokens -/

/-- The character preceding the current scan position, given the
character before the scanned segment. -/
def lastOpt : Option Char → List Char → Option Char
  | prev, [] => prev
  | _, c :: t => lastOpt (some c) t

theorem lastOpt_append_last (a : List Char) (y : Char) :
    ∀ prev, lastOpt prev (a ++ [y]) = some y := by
  induction a with
  | nil => intro prev; rfl
  | cons c a ih => intro prev; exact ih (some c)

theorem scanB_of_decomp (check : List Char → Bool) :
    ∀ (a : List Char) (prev : Option Char) (t : List Char),
      boundaryOk (lastOpt prev a) = true → check t = true →
      scanB check prev (a ++ t) = true := by
  intro a
  induction a with
  | nil =>
    intro prev t hb hc
    simp only [lastOpt] at hb
    cases t with
    | nil => simp [scanB, hb, hc]
    | cons c u => simp [scanB, hb, hc]
  | cons c a ih =>
    intro prev t hb hc
    rw [List.cons_append]
    simp only [scanB, Bool.or_eq_true]
    exact Or.inr (ih (some c) t hb hc)

theorem takeWhile_append_all (p : Char → Bool) :
    ∀ (u v : List Char), (∀ c ∈ u, p c = true) →
      (u ++ v).takeWhile p = u ++ v.takeWhile p := by
  intro u
  induction u with
  | nil => intro v _; rfl
  | cons c u ih =>
    intro v hu
    have hc : p c = true := hu c (by simp)
    simp only [List.cons_append, List.takeWhile_cons, hc, if_true]
    rw [ih v (fun x hx => hu x (by simp [hx]))]

theorem startsL_self_append : ∀ (u v : List Char), startsL u (u ++ v) = true := by
  intro u
  induction u with
  | nil => intro v; rfl
  | cons c u ih => intro v; simpa [startsL] using ih v

theorem exists_word_suffix (a : List Char) :
    ∃ a0 b, a = a0 ++ b ∧ (∀ c ∈ b, isWordChar c = true) ∧
      (a0 = [] ∨ ∃ a1 y, a0 = a1 ++ [y] ∧ isWordChar y = false) := by
  induction a using List.reverseRecOn with
  | nil => exact ⟨[], [], rfl, by simp, Or.inl rfl⟩
  | append_singleton xs y ih =>
    by_cases hy : isWordChar y = true
    · obtain ⟨a0, b, heq, hb, h0⟩ := ih
      refine ⟨a0, b ++ [y], by rw [heq]; simp, ?_, h0⟩
      intro c hc
      rcases List.mem_append.1 hc with h | h
      · exact hb c h
      · simp at h
        subst h
        exact hy
    · exact ⟨xs ++ [y], [], by simp, by simp, Or.inr ⟨xs, y, rfl, by simpa using hy⟩⟩

theorem p12Check_token (b w ext d1 d2 rest : List Char)
    (hext : ext ∈ extList6)
    (hbw : ∀ c ∈ b, isWordChar c = true)
    (hw : w ≠ []) (hww : ∀ c ∈ w, isWordChar c = true)
    (hd1 : d1 ≠ []) (hdd1 : ∀ c ∈ d1, Char.isDigit c = true) :
    p12Check ((b ++ w) ++ '.' :: (ext ++ ':' :: (d1 ++ ':' :: (d2 ++ rest)))) = true := by
  have hall : ∀ c ∈ b ++ w, isWordChar c = true := by
    intro c hc
    rcases List.mem_append.1 hc with h | h
    · exact hbw c h
    · exact hww c h
  have htw : ((b ++ w) ++ '.' :: (ext ++ ':' :: (d1 ++ ':' :: (d2 ++ rest)))).takeWhile isWordChar
      = b ++ w := by
    rw [takeWhile_append_all _ _ _ hall]
    simp [List.takeWhile_cons, isWordChar]
  simp only [p12Check, extNumCheck, htw]
  rw [List.drop_left]
  have hdot : extDotTail extList6 oneNumTailB ('.' :: (ext ++ ':' :: (d1 ++ ':' :: (d2 ++ rest))))
      = extList6.any (fun e =>
          startsL e (ext ++ ':' :: (d1 ++ ':' :: (d2 ++ rest))) &&
            oneNumTailB ((ext ++ ':' :: (d1 ++ ':' :: (d2 ++ rest))).drop e.length)) := rfl
  rw [hdot, Bool.and_eq_true]
  refine ⟨by simp [hw], ?_⟩
  simp only [List.any_eq_true]
  refine ⟨ext, hext, ?_⟩
  rw [Bool.and_eq_true]
  constructor
  · exact startsL_self_append ext (':' :: (d1 ++ ':' :: (d2 ++ rest)))
  · rw [List.drop_left]
    have hone : oneNumTailB (':' :: (d1 ++ ':' :: (d2 ++ rest)))
        = digitsBoundary (d1 ++ ':' :: (d2 ++ rest)) := rfl
    rw [hone]
    simp only [digitsBoundary]
    have htd : (d1 ++ ':' :: (d2 ++ rest)).takeWhile Char.isDigit = d1 := by
      rw [takeWhile_append_all _ _ _ hdd1]
      simp [List.takeWhile_cons, Char.isDigit]
    rw [htd, List.drop_left]
    simp [hd1, boundaryAfter, isWordChar]

theorem lineMatchesAny_of_p12 (l : List Char) (h : scanB p12Check none l = true) :
    lineMatchesAny l = true := by
  simp only [lineMatchesAny, stackTracePatterns, List.any_cons, List.any_nil,
    Bool.or_eq_true]
  tauto

/-- C5: on valid content of at least 20 bytes, `IsStackTrace` is true
exactly when at least two non-empty lines each match some detection
pattern; shorter content is always rejected; the scan returns true as
soon as two matching lines have been seen, whatever follows them; and a
line containing a word character, a dot, any of the six source
extensions, and a `line:column` digit pair matches a detection pattern
(for `cjs`, via the no-column pattern). -/
theorem isStackTrace_counting (x : List Char)
    (hv : isValidContent x = true) (hl : 20 ≤ utf8Len x) :
    (IsStackTrace x = true ↔ 2 ≤ (splitLines x).countP detectLine) ∧
    (∀ y : List Char, utf8Len y < 20 → IsStackTrace y = false) ∧
    (∀ a b : List (List Char), 2 ≤ a.countP detectLine →
      isStackTraceLoop 0 (a ++ b) = true) ∧
    (∀ a w ext d1 d2 rest : List Char, ext ∈ extList6 →
      w ≠ [] → (∀ c ∈ w, isWordChar c = true) →
      d1 ≠ [] → (∀ c ∈ d1, Char.isDigit c = true) →
      d2 ≠ [] → (∀ c ∈ d2, Char.isDigit c = true) →
      lineMatchesAny (a ++ (w ++ '.' :: (ext ++ ':' :: (d1 ++ ':' :: (d2 ++ rest))))) = true) := by
  refine ⟨?_, ?_, ?_, ?_⟩
  · rw [IsStackTrace, if_neg (by simp [hv]), if_neg (by omega)]
    have h := isStackTraceLoop_iff_count (splitLines x) 0 (by omega)
    simpa using h
  · intro y hy
    rw [IsStackTrace]
    by_cases h1 : isValidContent y = false
    · rw [if_pos h1]
    · rw [if_neg h1, if_pos hy]
  · intro a b h
    exact isStackTraceLoop_append a 0 b (by omega) (by omega)
  · intro a w ext d1 d2 rest hext hw hww hd1 hdd1 hd2 hdd2
    obtain ⟨a0, b0, heq, hb0, h0⟩ := exists_word_suffix a
    apply lineMatchesAny_of_p12
    have hline : a ++ (w ++ '.' :: (ext ++ ':' :: (d1 ++ ':' :: (d2 ++ rest))))
        = a0 ++ ((b0 ++ w) ++ '.' :: (ext ++ ':' :: (d1 ++ ':' :: (d2 ++ rest)))) := by
      rw [heq]
      simp [List.append_assoc]
    rw [hline]
    apply scanB_of_decomp
    · rcases h0 with h0 | ⟨a1, y, rfl, hy⟩
      · subst h0
        rfl
      · rw [lastOpt_append_last]
        simp [boundaryOk, hy]
    · exact p12Check_token b0 w ext d1 d2 rest hext hb0 hw hww hd1 hdd1

/-- Witness for C5 at the Scenario C two-line arrow-style input,
instantiating the counting equivalence, the short-circuit property and
the `cjs` extension token case. -/
theorem isStackTrace_counting_witness :
    (IsStackTrace ("commitPassiveMountOnFiber @ react-dom-client.development.js:14380\ncommitPassiveMountOnFiber @ react-dom-client.development.js:14514".data) = true ↔
      2 ≤ (splitLines ("commitPassiveMountOnFiber @ react-dom-client.development.js:14380\ncommitPassiveMountOnFiber @ react-dom-client.development.js:14514".data)).countP detectLine) ∧
    IsStackTrace ("tiny".data) = false ∧
    lineMatchesAny (("x ".data) ++ (("foo".data) ++ '.' :: (("cjs".data) ++ ':' :: (['1'] ++ ':' :: (['2'] ++ (" y".data)))))) = true := by
  have h := isStackTrace_counting ("commitPassiveMountOnFiber @ react-dom-client.development.js:14380\ncommitPassiveMountOnFiber @ react-dom-client.development.js:14514".data) (by decide) (by decide)
  refine ⟨h.1, h.2.1 _ (by decide), ?_⟩
  exact h.2.2.2 ("x ".data) ("foo".data) ("cjs".data) ['1'] ['2'] (" y".data)
    (by decide) (by decide) (by decide) (by decide) (by decide) (by decide) (by decide)

/-- C1: for a line matching the call-style frame shape the signature is
built from (trimmed, `at `-stripped) function, file and line; for a line
matching only the arrow-style shape it is built the same way from that
shape's groups; a line matching neither keeps its raw text as signature.
The pair form `function|file` (line dropped) is produced exactly when the
file name contains the `react-dom` marker and the function name contains,
case-insensitively, one of the allowlist entries; otherwise the signature
is `function|file|line`.  The two Scenario C arrow-style lines both get
the signature `commitPassiveMountOnFiber|react-dom-client.development.js`
and `CleanStackTrace` drops the second despite its different line number. -/
theorem frame_signature_rule (line : List Char) :
    (∀ fn file num col, frameFind line = some (fn, file, num, col) →
      extractFrameSignature line =
        extractFrameSignatureForStandardFormat (dropAtTag (goTrimSpace fn)) file num) ∧
    (frameFind line = none → ∀ fn file num, reactFind line = some (fn, file, num) →
      extractFrameSignature line =
        extractFrameSignatureForStandardFormat (goTrimSpace fn) file num) ∧
    (frameFind line = none → reactFind line = none →
      extractFrameSignature line = line) ∧
    (∀ f file num : List Char,
      (extractFrameSignatureForStandardFormat f file num = f ++ '|' :: file ↔
        containsSub file ("react-dom".data) = true ∧
          ∃ e ∈ reactInternalFunctions, containsSub (lowerStr f) (lowerStr e) = true) ∧
      (isReactInternalFunction f file = false →
        extractFrameSignatureForStandardFormat f file num =
          f ++ '|' :: file ++ '|' :: num)) ∧
    (extractFrameSignature ("commitPassiveMountOnFiber @ react-dom-client.development.js:14380".data)
        = ("commitPassiveMountOnFiber|react-dom-client.development.js".data) ∧
      extractFrameSignature ("commitPassiveMountOnFiber @ react-dom-client.development.js:14514".data)
        = ("commitPassiveMountOnFiber|react-dom-client.development.js".data) ∧
      CleanStackTrace ("commitPassiveMountOnFiber @ react-dom-client.development.js:14380\ncommitPassiveMountOnFiber @ react-dom-client.development.js:14514".data)
        = (("// Removed 1 repetitive stack frame(s)\ncommitPassiveMountOnFiber @ react-dom-client.development.js:14380".data), 1)) := by
  refine ⟨?_, ?_, ?_, ?_, by decide, by decide, by decide⟩
  · intro fn file num col h
    simp only [extractFrameSignature, h]
  · intro h1 fn file num h2
    simp only [extractFrameSignature, h1, h2, extractFrameSignatureForStandardFormat]
  · intro h1 h2
    simp only [extractFrameSignature, h1, h2]
  · intro f file num
    constructor
    · by_cases hint : isReactInternalFunction f file = true
      · rw [extractFrameSignatureForStandardFormat, if_pos hint]
        simp only [true_iff, eq_self_iff_true]
        have := hint
        rw [isReactInternalFunction, Bool.and_eq_true] at this
        refine ⟨this.1, ?_⟩
        have h2 := this.2
        rw [List.any_eq_true] at h2
        exact ⟨h2.choose, h2.choose_spec.1, h2.choose_spec.2⟩
      · have hf : isReactInternalFunction f file = false := by simpa using hint
        rw [extractFrameSignatureForStandardFormat, if_neg (by simp [hf])]
        constructor
        · intro heq
          have hlen := congrArg List.length heq
          simp [List.length_append] at hlen
        · intro ⟨hc, e, he, hce⟩
          exfalso
          have : isReactInternalFunction f file = true := by
            rw [isReactInternalFunction, Bool.and_eq_true]
            exact ⟨hc, List.any_eq_true.2 ⟨e, he, hce⟩⟩
          simp [this] at hf
    · intro hf
      rw [extractFrameSignatureForStandardFormat, if_neg (by simp [hf])]

/-- Witness for C1 at a concrete call-style frame line. -/
theorem frame_signature_rule_witness :
    extractFrameSignature ("at f (x.js:3:4)".data) =
      extractFrameSignatureForStandardFormat (dropAtTag (goTrimSpace ("at f".data)))
        ("x.js".data) ['3'] :=
  (frame_signature_rule ("at f (x.js:3:4)".data)).1 ("at f".data) ("x.js".data) ['3'] ['4']
    (by decide)

/-- Counterexample to C7: on a trace whose first line is empty, the code
takes the (empty) first line as the message, while the first non-empty
line is `a @ foo.js:1`; the claimed "first non-empty line, trimmed" value
differs from the actual message. -/
theorem extract_message_counterexample :
    IsStackTrace ("\na @ foo.js:1\nb @ bar.js:2".data) = true ∧
    ((splitLines ("\na @ foo.js:1\nb @ bar.js:2".data)).filter
        (fun l => !(l = []))).head? = some ("a @ foo.js:1".data) ∧
    (ExtractErrorInfo ("\na @ foo.js:1\nb @ bar.js:2".data)).map models.ErrorInfo.Message
      = some [] ∧
    ¬ (([] : List Char) = goTrimSpace ("a @ foo.js:1".data)) := by
  refine ⟨by decide, by decide, by decide, by decide⟩

/-- C7 (amended): `ExtractErrorInfo` returns `none` exactly when
`IsStackTrace` is false; and for recognized content the message is the
*first line* of the content, trimmed — which is empty when the content
starts with a blank line, rather than the first non-empty line. -/
theorem extract_message_amended (x : List Char) :
    (ExtractErrorInfo x = none ↔ IsStackTrace x = false) ∧
    (∀ info, ExtractErrorInfo x = some info →
      info.Message = goTrimSpace (firstLine x)) := by
  constructor
  · by_cases h : IsStackTrace x = false
    · simp [ExtractErrorInfo, h]
    · simp [ExtractErrorInfo, h]
  · intro info hinfo
    by_cases h : IsStackTrace x = false
    · simp [ExtractErrorInfo, h] at hinfo
    · simp only [ExtractErrorInfo, if_neg h, Option.some.injEq] at hinfo
      rw [← hinfo]

/-- Witness for C7's amended claim at a concrete two-frame trace. -/
theorem extract_message_amended_witness :
    (models.ErrorInfo.mk
        [("a @ foo.js:1".data), ("b @ bar.js:2".data)]
        [] ("bar.js:2".data) []).Message
      = goTrimSpace (firstLine ("\na @ foo.js:1\nb @ bar.js:2".data)) :=
  (extract_message_amended ("\na @ foo.js:1\nb @ bar.js:2".data)).2
    (models.ErrorInfo.mk
      [("a @ foo.js:1".data), ("b @ bar.js:2".data)]
      [] ("bar.js:2".data) [])
    (by decide)

/-! ## Last-match characterisation of source and component extraction -/

/-- The react/parenthesised source values produced by the non-empty
trimmed lines, in order. -/
def linesPrimaries (lines : List (List Char)) : List (List Char) :=
  lines.filterMap fun l =>
    if goTrimSpace l = [] then none else linePrimarySource (goTrimSpace l)

/-- The `.js:`-fallback source values produced by the non-empty trimmed
lines, in order. -/
def linesFallbacks (lines : List (List Char)) : List (List Char) :=
  lines.filterMap fun l =>
    if goTrimSpace l = [] then none else lineFallbackSource (goTrimSpace l)

/-- The component captures produced by the non-empty trimmed lines. -/
def linesComponents (lines : List (List Char)) : List (List Char) :=
  lines.filterMap fun l =>
    if goTrimSpace l = [] then none else componentFind (goTrimSpace l)

theorem linePrimarySource_ne_nil (t v : List Char)
    (h : linePrimarySource t = some v) : v ≠ [] := by
  rw [linePrimarySource] at h
  cases hm : sourceFileReactFind t with
  | some p =>
    rw [hm] at h
    by_cases hi : sourceFileInternal (goTrimSpace p.1) = true
    · simp [hi] at h
    · simp [hi] at h
      simp [← h]
  | none =>
    rw [hm] at h
    cases ha : sourceFileAltFind t with
    | some q =>
      rw [ha] at h
      by_cases hi : sourceFileInternal (goTrimSpace q.1) = true
      · simp [hi] at h
      · simp [hi] at h
        simp [← h]
    | none =>
      rw [ha] at h
      exact absurd h (by simp)

theorem lineFallbackSource_ne_nil (t v : List Char)
    (h : lineFallbackSource t = some v) : v ≠ [] := by
  rw [lineFallbackSource] at h
  cases hm : sourceFileFind t with
  | some p =>
    obtain ⟨ext, d1, d2⟩ := p
    simp only [hm] at h
    cases hj : lastIndexOfSub t (".js:".data) with
    | none => simp [hj] at h
    | some jsIndex =>
      simp only [hj] at h
      cases hs : lastIndexOfSub (t.take jsIndex) (['(']) with
      | none => simp [hs] at h
      | some start =>
        simp only [hs] at h
        split at h
        · simp at h
        · rw [Option.some.injEq] at h
          simp [← h]
  | none =>
    simp [hm] at h

theorem source_fold : ∀ (lines : List (List Char)) (s c : List Char) (fr : List (List Char)),
    (lines.foldl infoStep (s, c, fr)).1 =
      (linesPrimaries lines).getLastD
        (if s = [] then (linesFallbacks lines).headD s else s) := by
  intro lines
  induction lines with
  | nil =>
    intro s c fr
    simp [linesPrimaries, linesFallbacks]
  | cons l lines ih =>
    intro s c fr
    rw [List.foldl_cons]
    by_cases ht : goTrimSpace l = []
    · rw [show infoStep (s, c, fr) l = (s, c, fr) from by simp [infoStep, ht]]
      rw [ih s c fr]
      have hp : linesPrimaries (l :: lines) = linesPrimaries lines := by
        simp [linesPrimaries, List.filterMap_cons, ht]
      have hf : linesFallbacks (l :: lines) = linesFallbacks lines := by
        simp [linesFallbacks, List.filterMap_cons, ht]
      rw [hp, hf]
    · cases hp : linePrimarySource (goTrimSpace l) with
      | some v =>
        have hv : v ≠ [] := linePrimarySource_ne_nil _ _ hp
        have hstep : infoStep (s, c, fr) l =
            (v, (match componentFind (goTrimSpace l) with
                 | some g => g
                 | none => c), l :: fr) := by
          simp [infoStep, ht, hp, hv]
        rw [hstep, ih]
        have hps : linesPrimaries (l :: lines) = v :: linesPrimaries lines := by
          simp [linesPrimaries, List.filterMap_cons, ht, hp]
        rw [hps, List.getLastD_cons, if_neg hv]
      | none =>
        by_cases hs : s = []
        · cases hf : lineFallbackSource (goTrimSpace l) with
          | some w =>
            have hw : w ≠ [] := lineFallbackSource_ne_nil _ _ hf
            have hstep : infoStep (s, c, fr) l =
                (w, (match componentFind (goTrimSpace l) with
                     | some g => g
                     | none => c), l :: fr) := by
              simp [infoStep, ht, hp, hs, hf]
            rw [hstep, ih]
            have hps : linesPrimaries (l :: lines) = linesPrimaries lines := by
              simp [linesPrimaries, List.filterMap_cons, ht, hp]
            have hfs : linesFallbacks (l :: lines) = w :: linesFallbacks lines := by
              simp [linesFallbacks, List.filterMap_cons, ht, hf]
            rw [hps, hfs, if_neg hw, if_pos hs, List.headD_cons]
          | none =>
            have hstep : infoStep (s, c, fr) l =
                (s, (match componentFind (goTrimSpace l) with
                     | some g => g
                     | none => c), l :: fr) := by
              simp [infoStep, ht, hp, hs, hf]
            rw [hstep, ih]
            have hps : linesPrimaries (l :: lines) = linesPrimaries lines := by
              simp [linesPrimaries, List.filterMap_cons, ht, hp]
            have hfs : linesFallbacks (l :: lines) = linesFallbacks lines := by
              simp [linesFallbacks, List.filterMap_cons, ht, hf]
            rw [hps, hfs]
        · have hstep : infoStep (s, c, fr) l =
              (s, (match componentFind (goTrimSpace l) with
                   | some g => g
                   | none => c), l :: fr) := by
            simp [infoStep, ht, hp, hs]
          rw [hstep, ih]
          have hps : linesPrimaries (l :: lines) = linesPrimaries lines := by
            simp [linesPrimaries, List.filterMap_cons, ht, hp]
          rw [hps, if_neg hs, if_neg hs]

theorem component_fold : ∀ (lines : List (List Char)) (s c : List Char) (fr : List (List Char)),
    (lines.foldl infoStep (s, c, fr)).2.1 = (linesComponents lines).getLastD c := by
  intro lines
  induction lines with
  | nil =>
    intro s c fr
    simp [linesComponents]
  | cons l lines ih =>
    intro s c fr
    rw [List.foldl_cons]
    by_cases ht : goTrimSpace l = []
    · rw [show infoStep (s, c, fr) l = (s, c, fr) from by simp [infoStep, ht]]
      rw [ih s c fr]
      have hc : linesComponents (l :: lines) = linesComponents lines := by
        simp [linesComponents, List.filterMap_cons, ht]
      rw [hc]
    · have h21 : (infoStep (s, c, fr) l).2.1 =
          match componentFind (goTrimSpace l) with
          | some g => g
          | none => c := by
        simp [infoStep, ht]
      rw [show infoStep (s, c, fr) l =
            ((infoStep (s, c, fr) l).1, (infoStep (s, c, fr) l).2.1,
              (infoStep (s, c, fr) l).2.2) from rfl, ih _ _ _, h21]
      cases hcf : componentFind (goTrimSpace l) with
      | some g =>
        simp only [hcf]
        have hc : linesComponents (l :: lines) = g :: linesComponents lines := by
          simp [linesComponents, List.filterMap_cons, ht, hcf]
        rw [hc, List.getLastD_cons]
      | none =>
        simp only [hcf]
        have hc : linesComponents (l :: lines) = linesComponents lines := by
          simp [linesComponents, List.filterMap_cons, ht, hcf]
        rw [hc]

/-- Counterexample to C6: on this two-frame trace the first line already
yields the non-internal source `foo.js:1`, yet the extracted source is
`bar.js:2` from the *last* line — later matches overwrite earlier ones,
so `source` is not a sticky first match (and neither is `component`). -/
theorem extract_source_counterexample :
    IsStackTrace ("a @ foo.js:1\nb @ bar.js:2".data) = true ∧
    linePrimarySource (goTrimSpace ("a @ foo.js:1".data)) = some ("foo.js:1".data) ∧
    (ExtractErrorInfo ("a @ foo.js:1\nb @ bar.js:2".data)).map models.ErrorInfo.Source
      = some ("bar.js:2".data) ∧
    ¬ (("bar.js:2".data) = ("foo.js:1".data)) := by
  refine ⟨by decide, by decide, by decide, by decide⟩

/-- C6 (amended): for recognized content, `source` is a *last-match*
field for the react/parenthesised patterns — the last non-empty line
whose match has a non-internal file name wins, with the `.js:` fallback
(consulted only while `source` is still empty) supplying a value only
when no line ever produces a primary one; `component` is likewise taken
from the last line matching the lifecycle pattern. -/
theorem extract_source_amended (x : List Char) (h : IsStackTrace x = true) :
    ∃ info, ExtractErrorInfo x = some info ∧
      info.Source = (linesPrimaries (splitLines x)).getLastD
          ((linesFallbacks (splitLines x)).headD []) ∧
      info.Component = (linesComponents (splitLines x)).getLastD [] := by
  have hx : ¬ (IsStackTrace x = false) := by simp [h]
  simp only [ExtractErrorInfo, if_neg hx]
  refine ⟨_, rfl, ?_, ?_⟩
  · have hs := source_fold (splitLines x) [] [] []
    simpa using hs
  · exact component_fold (splitLines x) [] [] []

/-- Witness for C6's amended claim at the two-frame trace. -/
theorem extract_source_amended_witness :
    ∃ info, ExtractErrorInfo ("a @ foo.js:1\nb @ bar.js:2".data) = some info ∧
      info.Source = (linesPrimaries (splitLines ("a @ foo.js:1\nb @ bar.js:2".data))).getLastD
          ((linesFallbacks (splitLines ("a @ foo.js:1\nb @ bar.js:2".data))).headD []) ∧
      info.Component =
        (linesComponents (splitLines ("a @ foo.js:1\nb @ bar.js:2".data))).getLastD [] :=
  extract_source_amended ("a @ foo.js:1\nb @ bar.js:2".data) (by decide)

/-! ## Keep/drop flags of the cleaning loop -/

/-- The keep/drop decision of `cleanLoop` for each line, as a Boolean
list parallel to the input lines. -/
def keepFlags (seen : List (List Char)) : List (List Char) → List Bool
  | [] => []
  | l :: ls =>
    if goTrimSpace l = [] then true :: keepFlags seen ls
    else if isStackFrameLine (goTrimSpace l) then
      if extractFrameSignature (goTrimSpace l) ∈ seen then false :: keepFlags seen ls
      else true :: keepFlags (extractFrameSignature (goTrimSpace l) :: seen) ls
    else true :: keepFlags seen ls

/-- Select the lines whose flag is true. -/
def pickKept (p : List Char × Bool) : Option (List Char) :=
  if p.2 then some p.1 else none

theorem keepFlags_length : ∀ (ls : List (List Char)) (seen : List (List Char)),
    (keepFlags seen ls).length = ls.length := by
  intro ls
  induction ls with
  | nil => intro seen; simp [keepFlags]
  | cons l ls ih =>
    intro seen
    simp only [keepFlags]
    by_cases h1 : goTrimSpace l = []
    · simp [h1, ih]
    · simp only [if_neg h1]
      by_cases h2 : isStackFrameLine (goTrimSpace l) = true
      · simp only [if_pos h2]
        by_cases h3 : extractFrameSignature (goTrimSpace l) ∈ seen
        · simp [h3, ih]
        · simp [h3, ih]
      · simp [h2, ih]

theorem cleanLoop_eq_flags : ∀ (ls : List (List Char)) (seen : List (List Char)),
    (cleanLoop seen ls).1 = (ls.zip (keepFlags seen ls)).filterMap pickKept ∧
    (cleanLoop seen ls).2 = (keepFlags seen ls).countP (fun b => !b) := by
  intro ls
  induction ls with
  | nil => intro seen; simp [cleanLoop, keepFlags]
  | cons l ls ih =>
    intro seen
    simp only [cleanLoop, keepFlags]
    by_cases h1 : goTrimSpace l = []
    · simp only [if_pos h1, List.zip_cons_cons, List.filterMap_cons]
      constructor
      · simp [pickKept, (ih seen).1]
      · simp [List.countP_cons, (ih seen).2]
    · simp only [if_neg h1]
      by_cases h2 : isStackFrameLine (goTrimSpace l) = true
      · simp only [if_pos h2]
        by_cases h3 : extractFrameSignature (goTrimSpace l) ∈ seen
        · simp only [if_pos h3, List.zip_cons_cons, List.filterMap_cons]
          constructor
          · simp [pickKept, (ih seen).1]
          · simp [List.countP_cons, (ih seen).2]
        · simp only [if_neg h3, List.zip_cons_cons, List.filterMap_cons]
          constructor
          · simp [pickKept, (ih _).1]
          · simp [List.countP_cons, (ih _).2]
      · simp only [if_neg h2, List.zip_cons_cons, List.filterMap_cons]
        constructor
        · simp [pickKept, (ih seen).1]
        · simp [List.countP_cons, (ih seen).2]

theorem keepFlags_keeps_non_frames : ∀ (ls : List (List Char)) (seen : List (List Char)),
    ∀ p ∈ ls.zip (keepFlags seen ls),
      (goTrimSpace p.1 = [] ∨ isStackFrameLine (goTrimSpace p.1) = false) → p.2 = true := by
  intro ls
  induction ls with
  | nil => intro seen p hp; simp [keepFlags] at hp
  | cons l ls ih =>
    intro seen p hp hcond
    simp only [keepFlags] at hp
    by_cases h1 : goTrimSpace l = []
    · rw [if_pos h1, List.zip_cons_cons] at hp
      rcases List.mem_cons.1 hp with h | h
      · rw [h]
      · exact ih seen p h hcond
    · rw [if_neg h1] at hp
      by_cases h2 : isStackFrameLine (goTrimSpace l) = true
      · rw [if_pos h2] at hp
        by_cases h3 : extractFrameSignature (goTrimSpace l) ∈ seen
        · rw [if_pos h3, List.zip_cons_cons] at hp
          rcases List.mem_cons.1 hp with h | h
          · exfalso
            rw [h] at hcond
            rcases hcond with hc | hc
            · exact h1 hc
            · rw [h2] at hc
              exact absurd hc (by simp)
          · exact ih seen p h hcond
        · rw [if_neg h3, List.zip_cons_cons] at hp
          rcases List.mem_cons.1 hp with h | h
          · rw [h]
          · exact ih _ p h hcond
      · rw [if_neg h2, List.zip_cons_cons] at hp
        rcases List.mem_cons.1 hp with h | h
        · rw [h]
        · exact ih seen p h hcond

theorem keepFlags_dropped : ∀ (ls : List (List Char)) (seen P : List (List Char)),
    (∀ s ∈ seen, ∃ w ∈ P, isStackFrameLine (goTrimSpace w) = true ∧
        extractFrameSignature (goTrimSpace w) = s) →
    ∀ (a : List (List Char × Bool)) (l : List Char) (b : List (List Char × Bool)),
      ls.zip (keepFlags seen ls) = a ++ (l, false) :: b →
      isStackFrameLine (goTrimSpace l) = true ∧
      ∃ w ∈ P ++ a.filterMap pickKept, isStackFrameLine (goTrimSpace w) = true ∧
        extractFrameSignature (goTrimSpace w) = extractFrameSignature (goTrimSpace l) := by
  intro ls
  induction ls with
  | nil =>
    intro seen P _ a l b heq
    rw [show keepFlags seen [] = [] from rfl] at heq
    simp at heq
  | cons l0 ls ih =>
    intro seen P hinv a l b heq
    simp only [keepFlags] at heq
    by_cases h1 : goTrimSpace l0 = []
    · rw [if_pos h1, List.zip_cons_cons] at heq
      cases a with
      | nil =>
        simp at heq
      | cons p0 a' =>
        rw [List.cons_append] at heq
        have hp0 : p0 = (l0, true) := (List.cons_eq_cons.1 heq).1.symm
        have htl : ls.zip (keepFlags seen ls) = a' ++ (l, false) :: b :=
          (List.cons_eq_cons.1 heq).2
        have hres := ih seen (P ++ [l0]) ?_ a' l b htl
        · refine ⟨hres.1, ?_⟩
          obtain ⟨w, hw, hwf, hws⟩ := hres.2
          refine ⟨w, ?_, hwf, hws⟩
          rw [hp0]
          have : (((l0, true) :: a').filterMap pickKept) = l0 :: a'.filterMap pickKept := by
            simp [List.filterMap_cons, pickKept]
          rw [this]
          rw [List.append_assoc] at hw
          simpa using hw
        · intro s hs
          obtain ⟨w, hw, hwf, hws⟩ := hinv s hs
          exact ⟨w, by simp [hw], hwf, hws⟩
    · rw [if_neg h1] at heq
      by_cases h2 : isStackFrameLine (goTrimSpace l0) = true
      · rw [if_pos h2] at heq
        by_cases h3 : extractFrameSignature (goTrimSpace l0) ∈ seen
        · rw [if_pos h3, List.zip_cons_cons] at heq
          cases a with
          | nil =>
            simp only [List.nil_append] at heq
            have hl0 : (l0, false) = ((l, false) : List Char × Bool) := (List.cons_eq_cons.1 heq).1
            have hll : l0 = l := congrArg Prod.fst hl0
            subst hll
            refine ⟨h2, ?_⟩
            obtain ⟨w, hw, hwf, hws⟩ := hinv _ h3
            exact ⟨w, by simp [hw], hwf, hws⟩
          | cons p0 a' =>
            rw [List.cons_append] at heq
            have hp0 : p0 = (l0, false) := (List.cons_eq_cons.1 heq).1.symm
            have htl : ls.zip (keepFlags seen ls) = a' ++ (l, false) :: b :=
              (List.cons_eq_cons.1 heq).2
            have hres := ih seen P hinv a' l b htl
            refine ⟨hres.1, ?_⟩
            obtain ⟨w, hw, hwf, hws⟩ := hres.2
            refine ⟨w, ?_, hwf, hws⟩
            rw [hp0]
            have : (((l0, false) :: a').filterMap pickKept) = a'.filterMap pickKept := by
              simp [List.filterMap_cons, pickKept]
            rw [this]
            exact hw
        · rw [if_neg h3, List.zip_cons_cons] at heq
          cases a with
          | nil =>
            simp at heq
          | cons p0 a' =>
            rw [List.cons_append] at heq
            have hp0 : p0 = (l0, true) := (List.cons_eq_cons.1 heq).1.symm
            have htl : ls.zip (keepFlags (extractFrameSignature (goTrimSpace l0) :: seen) ls)
                = a' ++ (l, false) :: b := (List.cons_eq_cons.1 heq).2
            have hres := ih (extractFrameSignature (goTrimSpace l0) :: seen) (P ++ [l0]) ?_ a' l b htl
            · refine ⟨hres.1, ?_⟩
              obtain ⟨w, hw, hwf, hws⟩ := hres.2
              refine ⟨w, ?_, hwf, hws⟩
              rw [hp0]
              have : (((l0, true) :: a').filterMap pickKept) = l0 :: a'.filterMap pickKept := by
                simp [List.filterMap_cons, pickKept]
              rw [this]
              rw [List.append_assoc] at hw
              simpa using hw
            · intro s hs
              rcases List.mem_cons.1 hs with hs | hs
              · exact ⟨l0, by simp, h2, hs.symm⟩
              · obtain ⟨w, hw, hwf, hws⟩ := hinv s hs
                exact ⟨w, by simp [hw], hwf, hws⟩
      · rw [if_neg h2, List.zip_cons_cons] at heq
        cases a with
        | nil =>
          simp at heq
        | cons p0 a' =>
          rw [List.cons_append] at heq
          have hp0 : p0 = (l0, true) := (List.cons_eq_cons.1 heq).1.symm
          have htl : ls.zip (keepFlags seen ls) = a' ++ (l, false) :: b :=
            (List.cons_eq_cons.1 heq).2
          have hres := ih seen (P ++ [l0]) ?_ a' l b htl
          · refine ⟨hres.1, ?_⟩
            obtain ⟨w, hw, hwf, hws⟩ := hres.2
            refine ⟨w, ?_, hwf, hws⟩
            rw [hp0]
            have : (((l0, true) :: a').filterMap pickKept) = l0 :: a'.filterMap pickKept := by
              simp [List.filterMap_cons, pickKept]
            rw [this]
            rw [List.append_assoc] at hw
            simpa using hw
          · intro s hs
            obtain ⟨w, hw, hwf, hws⟩ := hinv s hs
            exact ⟨w, by simp [hw], hwf, hws⟩

theorem zip_replicate_true_filterMap : ∀ (ls : List (List Char)),
    ((ls.zip (List.replicate ls.length true)).filterMap pickKept) = ls := by
  intro ls
  induction ls with
  | nil => rfl
  | cons l ls ih =>
    simp only [List.length_cons, List.replicate_succ, List.zip_cons_cons,
      List.filterMap_cons]
    simp [pickKept, ih]

theorem zip_replicate_true_flag : ∀ (ls : List (List Char)),
    ∀ p ∈ ls.zip (List.replicate ls.length true), p.2 = true := by
  intro ls
  induction ls with
  | nil => intro p hp; simp at hp
  | cons l ls ih =>
    intro p hp
    simp only [List.length_cons, List.replicate_succ, List.zip_cons_cons] at hp
    rcases List.mem_cons.1 hp with h | h
    · rw [h]
    · exact ih p h

theorem countP_not_replicate_true (n : Nat) :
    (List.replicate n true).countP (fun b => !b) = 0 := by
  induction n with
  | zero => rfl
  | succ m ih => simp [List.replicate_succ, List.countP_cons, ih]

/-- C9: the lines of the cleaned output — excluding the prepended
summary line when one is present — are exactly the original lines whose
keep-flag is true, in order (hence a subsequence of the input lines,
kept verbatim); every empty or non-frame line is flagged kept; every
dropped line is a frame line whose signature equals the signature of an
earlier kept frame line; and the removal count is the number of dropped
flags. -/
theorem clean_only_drops_duplicates (x : List Char) :
    ∃ flags : List Bool,
      flags.length = (splitLines x).length ∧
      (if 0 < (CleanStackTrace x).2
        then (splitLines (CleanStackTrace x).1).drop 1
        else splitLines (CleanStackTrace x).1)
        = ((splitLines x).zip flags).filterMap pickKept ∧
      (CleanStackTrace x).2 = flags.countP (fun b => !b) ∧
      (if 0 < (CleanStackTrace x).2
        then (splitLines (CleanStackTrace x).1).drop 1
        else splitLines (CleanStackTrace x).1).Sublist (splitLines x) ∧
      (∀ p ∈ (splitLines x).zip flags,
        (goTrimSpace p.1 = [] ∨ isStackFrameLine (goTrimSpace p.1) = false) → p.2 = true) ∧
      (∀ (a : List (List Char × Bool)) (l : List Char) (b : List (List Char × Bool)),
        (splitLines x).zip flags = a ++ (l, false) :: b →
        isStackFrameLine (goTrimSpace l) = true ∧
        ∃ w ∈ a.filterMap pickKept, isStackFrameLine (goTrimSpace w) = true ∧
          extractFrameSignature (goTrimSpace w) = extractFrameSignature (goTrimSpace l)) := by
  by_cases hid : CleanStackTrace x = (x, 0)
  · refine ⟨List.replicate (splitLines x).length true, by simp, ?_, ?_, ?_, ?_, ?_⟩
    · rw [hid]
      simp only []
      rw [if_neg (by simp)]
      rw [zip_replicate_true_filterMap]
    · rw [hid, countP_not_replicate_true]
    · rw [hid]
      simp only []
      rw [if_neg (by simp)]
    · intro p hp _
      exact zip_replicate_true_flag (splitLines x) p hp
    · intro a l b heq
      exfalso
      have hmem : ((l, false) : List Char × Bool) ∈ (splitLines x).zip
          (List.replicate (splitLines x).length true) := by
        rw [heq]
        simp
      have := zip_replicate_true_flag (splitLines x) (l, false) hmem
      simp at this
  · have hv : ¬ (isValidContent x = false) := by
      intro hvv
      exact hid (by simp [CleanStackTrace, hvv])
    have hts : ¬ (IsStackTrace x = false) := by
      intro htt
      exact hid (by simp [CleanStackTrace, hv, htt])
    have hcs : CleanStackTrace x =
        (if 0 < (cleanLoop [] (splitLines x)).2
          then (removalHeader ((cleanLoop [] (splitLines x)).2) ++
            '\n' :: intercalateNl ((cleanLoop [] (splitLines x)).1),
            (cleanLoop [] (splitLines x)).2)
          else (intercalateNl ((cleanLoop [] (splitLines x)).1),
            (cleanLoop [] (splitLines x)).2)) := by
      simp only [CleanStackTrace, if_neg hv, if_neg hts]
    have hk := cleanLoop_eq_flags (splitLines x) []
    have hkept_ne : (cleanLoop [] (splitLines x)).1 ≠ [] := by
      cases hsp : splitLines x with
      | nil => exact absurd hsp (splitLines_ne_nil x)
      | cons l0 ls0 => exact cleanLoop_ne_nil l0 ls0
    have hkept_nl : ∀ l ∈ (cleanLoop [] (splitLines x)).1, ¬ ('\n' ∈ l) := by
      intro l hl
      exact mem_splitLines_no_nl x l
        ((cleanLoop_sublist (splitLines x) []).mem hl)
    have hjoin : splitLines (intercalateNl ((cleanLoop [] (splitLines x)).1))
        = (cleanLoop [] (splitLines x)).1 :=
      split_join _ hkept_ne hkept_nl
    have hsnd : (CleanStackTrace x).2 = (cleanLoop [] (splitLines x)).2 := by
      rw [hcs]
      split
      · rfl
      · rfl
    have hbody : (if 0 < (CleanStackTrace x).2
        then (splitLines (CleanStackTrace x).1).drop 1
        else splitLines (CleanStackTrace x).1) = (cleanLoop [] (splitLines x)).1 := by
      rw [hsnd, hcs]
      by_cases hn : 0 < (cleanLoop [] (splitLines x)).2
      · rw [if_pos hn]
        simp only [if_pos hn]
        rw [splitLines_append_nl _ _ (removalHeader_no_nl _), hjoin]
        rfl
      · rw [if_neg hn]
        simp only [if_neg hn]
        exact hjoin
    refine ⟨keepFlags [] (splitLines x), keepFlags_length _ _, ?_, ?_, ?_, ?_, ?_⟩
    · rw [hbody, hk.1]
    · rw [hsnd, hk.2]
    · rw [hbody]
      exact cleanLoop_sublist (splitLines x) []
    · exact keepFlags_keeps_non_frames (splitLines x) []
    · intro a l b heq
      have hres := keepFlags_dropped (splitLines x) [] [] (by simp) a l b heq
      refine ⟨hres.1, ?_⟩
      obtain ⟨w, hw, hwf, hws⟩ := hres.2
      rw [List.nil_append] at hw
      exact ⟨w, hw, hwf, hws⟩

/-- Witness for C9 at a concrete two-line trace with one duplicate. -/
theorem clean_only_drops_duplicates_witness :
    ∃ flags : List Bool,
      flags.length = (splitLines ("at q (r.js:7:8)\nat q (r.js:7:8)".data)).length ∧
      (if 0 < (CleanStackTrace ("at q (r.js:7:8)\nat q (r.js:7:8)".data)).2
        then (splitLines (CleanStackTrace ("at q (r.js:7:8)\nat q (r.js:7:8)".data)).1).drop 1
        else splitLines (CleanStackTrace ("at q (r.js:7:8)\nat q (r.js:7:8)".data)).1)
        = ((splitLines ("at q (r.js:7:8)\nat q (r.js:7:8)".data)).zip flags).filterMap pickKept ∧
      (CleanStackTrace ("at q (r.js:7:8)\nat q (r.js:7:8)".data)).2 = flags.countP (fun b => !b) ∧
      (if 0 < (CleanStackTrace ("at q (r.js:7:8)\nat q (r.js:7:8)".data)).2
        then (splitLines (CleanStackTrace ("at q (r.js:7:8)\nat q (r.js:7:8)".data)).1).drop 1
        else splitLines (CleanStackTrace ("at q (r.js:7:8)\nat q (r.js:7:8)".data)).1).Sublist
          (splitLines ("at q (r.js:7:8)\nat q (r.js:7:8)".data)) ∧
      (∀ p ∈ (splitLines ("at q (r.js:7:8)\nat q (r.js:7:8)".data)).zip flags,
        (goTrimSpace p.1 = [] ∨ isStackFrameLine (goTrimSpace p.1) = false) → p.2 = true) ∧
      (∀ (a : List (List Char × Bool)) (l : List Char) (b : List (List Char × Bool)),
        (splitLines ("at q (r.js:7:8)\nat q (r.js:7:8)".data)).zip flags = a ++ (l, false) :: b →
        isStackFrameLine (goTrimSpace l) = true ∧
        ∃ w ∈ a.filterMap pickKept, isStackFrameLine (goTrimSpace w) = true ∧
          extractFrameSignature (goTrimSpace w) = extractFrameSignature (goTrimSpace l)) :=
  clean_only_drops_duplicates ("at q (r.js:7:8)\nat q (r.js:7:8)".data)
